import Mathlib

/-!
Verification of the side-by-side diff rendering engine of `gitguy`.

Strings are modelled as lists of characters (`Str`).  Machine `int`s are
modelled as `Int` (with Go's `uint(...)` conversion made explicit as a
reduction modulo `2^64` where it matters).  The third-party text helpers
from `muesli/reflow` (`ansi.PrintableRuneWidth`, `truncate.String`,
`wordwrap.String`) are translated from their sources, with one uniform
abstraction: every printable rune occupies one terminal column (the Go
code consults `go-runewidth`, which widens CJK runes; nothing in the
verified properties depends on per-rune widths).  `lipgloss` styles are
modelled as a pair of SGR escape sequences wrapped around the payload,
and the `chroma` highlighter as an explicit environment of partial
lookups, exactly mirroring the nil-checks performed by the Go code.
-/

namespace GitGuy

/-- A Go string, modelled as its list of runes. -/
abbrev Str := List Char

/-- The ANSI escape marker `\x1b` (reflow's `ansi.Marker`). -/
def ansiMarker : Char := Char.ofNat 27

/-- Model of reflow `ansi.IsTerminator`: a rune in `0x40-0x5a` or `0x61-0x7a`
terminates an ANSI escape sequence. -/
def isTerminator (c : Char) : Bool :=
  (0x40 ≤ c.toNat && c.toNat ≤ 0x5a) || (0x61 ≤ c.toNat && c.toNat ≤ 0x7a)

/-- Scanner underlying reflow's `ansi.PrintableRuneWidth`, generalised over the
initial in-escape state: width of the printable runes of `s`, skipping ANSI
escape sequences (each printable rune counts one column). -/
def printableWidthFrom (a : Bool) : Str → Nat
  | [] => 0
  | c :: rest =>
    if c = ansiMarker then printableWidthFrom true rest
    else if a then
      (if isTerminator c then printableWidthFrom false rest
       else printableWidthFrom true rest)
    else 1 + printableWidthFrom false rest

/-- Model of reflow `ansi.PrintableRuneWidth`. -/
def printableRuneWidth (s : Str) : Nat := printableWidthFrom false s

/-- The in-escape state of the ANSI scanner after reading `s`, starting in
state `a`. -/
def ansiStateAfter (a : Bool) : Str → Bool
  | [] => a
  | c :: rest =>
    if c = ansiMarker then ansiStateAfter true rest
    else if a then
      (if isTerminator c then ansiStateAfter false rest
       else ansiStateAfter true rest)
    else ansiStateAfter false rest

/-- Core loop of reflow `truncate.String`: keep runes while the accumulated
printable width stays within `w`; ANSI escape runes are kept for free; the
remainder of the string is dropped at the first printable rune that would
exceed the budget.  (The zero-width ANSI reset that the Go writer may emit at
the cut point is elided; it has no printable width.) -/
def truncFrom (w : Nat) : Bool → Nat → Str → Str
  | _, _, [] => []
  | a, cur, c :: rest =>
    if c = ansiMarker then c :: truncFrom w true cur rest
    else if a then
      (if isTerminator c then c :: truncFrom w false cur rest
       else c :: truncFrom w true cur rest)
    else if w < cur + 1 then []
    else c :: truncFrom w false (cur + 1) rest

/-- Model of reflow `truncate.String s w`. -/
def truncateString (s : Str) (w : Nat) : Str := truncFrom w false 0 s

/-- Model of `DiffViewer.fitToWidth` (part_004, lines 821-840): ensure the text
fits exactly within `width` printable columns, truncating when over-wide and
padding with spaces when under-wide.  `width` is a Go `int`. -/
def fitToWidth (text : Str) (width : Int) : Str :=
  if width ≤ 0 then []
  else
    let visualWidth : Nat := printableRuneWidth text
    if width < (visualWidth : Int) then truncateString text width.toNat
    else if (visualWidth : Int) < width then
      text ++ List.replicate (width.toNat - visualWidth) ' '
    else text

theorem printableWidthFrom_truncFrom (w : Nat) :
    ∀ (s : Str) (a : Bool) (cur : Nat), cur ≤ w →
      printableWidthFrom a (truncFrom w a cur s) =
        min (printableWidthFrom a s) (w - cur) := by
  intro s
  induction s with
  | nil => intro a cur h; simp [truncFrom, printableWidthFrom]
  | cons c rest ih =>
    intro a cur h
    cases a with
    | false =>
      by_cases hm : c = ansiMarker
      · subst hm
        simpa [truncFrom, printableWidthFrom] using ih true cur h
      · by_cases hw : w < cur + 1
        · have hcur : cur = w := by omega
          subst hcur
          simp [truncFrom, printableWidthFrom, hm, hw]
        · have hrec := ih false (cur + 1) (by omega)
          simp only [truncFrom, printableWidthFrom, hm, hw, if_false,
            ite_false]
          simp [hm, hrec]
          omega
    | true =>
      by_cases hm : c = ansiMarker
      · subst hm
        simpa [truncFrom, printableWidthFrom] using ih true cur h
      · by_cases ht : isTerminator c
        · have hrec := ih false cur h
          simp [truncFrom, printableWidthFrom, hm, ht, hrec]
        · have hrec := ih true cur h
          simp [truncFrom, printableWidthFrom, hm, ht, hrec]

theorem printableRuneWidth_truncateString (s : Str) (w : Nat) :
    printableRuneWidth (truncateString s w) = min (printableRuneWidth s) w := by
  have := printableWidthFrom_truncFrom w s false 0 (Nat.zero_le w)
  simpa [truncateString, printableRuneWidth] using this

theorem printableWidthFrom_append (s t : Str) :
    ∀ a, printableWidthFrom a (s ++ t) =
      printableWidthFrom a s + printableWidthFrom (ansiStateAfter a s) t := by
  induction s with
  | nil => intro a; simp [printableWidthFrom, ansiStateAfter]
  | cons c rest ih =>
    intro a
    cases a with
    | false =>
      by_cases hm : c = ansiMarker
      · subst hm
        simpa [printableWidthFrom, ansiStateAfter] using ih true
      · simp [printableWidthFrom, ansiStateAfter, hm, ih false]
        omega
    | true =>
      by_cases hm : c = ansiMarker
      · subst hm
        simpa [printableWidthFrom, ansiStateAfter] using ih true
      · by_cases ht : isTerminator c
        · simp [printableWidthFrom, ansiStateAfter, hm, ht, ih false]
        · simp [printableWidthFrom, ansiStateAfter, hm, ht, ih true]

theorem printableWidthFrom_replicate_space (n : Nat) :
    ∀ a, printableWidthFrom a (List.replicate n ' ') = if a then 0 else n := by
  induction n with
  | zero => intro a; simp [printableWidthFrom]
  | succ k ih =>
    intro a
    have hm : ¬ (' ' = ansiMarker) := by decide
    have ht : isTerminator ' ' = false := by decide
    cases a with
    | false =>
      simp [List.replicate_succ, printableWidthFrom, hm, ih false]
      omega
    | true =>
      simp [List.replicate_succ, printableWidthFrom, hm, ht, ih true]

theorem printableWidthFrom_replicate_space_le (a : Bool) (n : Nat) :
    printableWidthFrom a (List.replicate n ' ') ≤ n := by
  rcases a <;> simp [printableWidthFrom_replicate_space]

/-- Claim C1, amended.  For the row-width enforcement `fitToWidth`:
every row whose text leaves the ANSI scanner outside an escape sequence is
rendered at exactly the requested pane width (truncated when over-wide,
space-padded when under-wide), for every pane width at least the minimum
column width 40; and for arbitrary text (including text that ends inside an
unterminated ANSI escape sequence, where the appended padding is swallowed by
the escape-aware width scanner so that exact equality can fail) the printable
visual width never exceeds the pane width. -/
theorem fitToWidth_exact_visual_width (text : Str) (width : Int) :
    (40 ≤ width → ansiStateAfter false text = false →
      printableRuneWidth (fitToWidth text width) = width.toNat)
    ∧ printableRuneWidth (fitToWidth text width) ≤ width.toNat := by
  by_cases h0 : width ≤ 0
  · constructor
    · intro h40
      omega
    · simp [fitToWidth, h0, printableRuneWidth, printableWidthFrom]
  · have hwpos : 0 < width := by omega
    by_cases htr : width < (printableRuneWidth text : Int)
    · have : fitToWidth text width = truncateString text width.toNat := by
        simp [fitToWidth, h0, htr]
      rw [this, printableRuneWidth_truncateString]
      have : width.toNat ≤ printableRuneWidth text := by omega
      constructor
      · intro _ _; omega
      · omega
    · by_cases hpad : (printableRuneWidth text : Int) < width
      · have : fitToWidth text width =
            text ++ List.replicate (width.toNat - printableRuneWidth text) ' ' := by
          simp [fitToWidth, h0, htr, hpad]
        rw [this]
        have happ := printableWidthFrom_append text
          (List.replicate (width.toNat - printableRuneWidth text) ' ') false
        constructor
        · intro _ hclosed
          rw [printableRuneWidth, happ, hclosed,
            printableWidthFrom_replicate_space]
          simp only [Bool.false_eq_true, if_false]
          have : printableRuneWidth text ≤ width.toNat := by omega
          rw [printableRuneWidth] at this ⊢
          omega
        · rw [printableRuneWidth, happ]
          have hle := printableWidthFrom_replicate_space_le
            (ansiStateAfter false text) (width.toNat - printableRuneWidth text)
          rw [printableRuneWidth] at *
          omega
      · have heq : (printableRuneWidth text : Int) = width := by omega
        have : fitToWidth text width = text := by
          simp [fitToWidth, h0, htr, hpad]
        rw [this]
        constructor
        · intro _ _; omega
        · omega

/-- Claim C1, counterexample to the claim as stated: a row whose text is the
bare ANSI escape marker is space-padded by `fitToWidth`, but since the padding
falls inside the (unterminated) escape sequence, the ANSI-aware printable
width of the produced row is 0, not the pane width 40, even though 40 meets
the minimum column width. -/
theorem fitToWidth_open_escape_counterexample :
    (40 : Int) ≤ 40 ∧
      printableRuneWidth (fitToWidth [ansiMarker] 40) ≠ (40 : Int).toNat := by
  constructor
  · decide
  · decide

theorem fitToWidth_exact_visual_width_witness :
    (40 : Int) ≤ 40 ∧ ansiStateAfter false ('a' :: 'b' :: []) = false ∧
      printableRuneWidth (fitToWidth ('a' :: 'b' :: []) 40) = (40 : Int).toNat :=
  ⟨by decide, by decide,
    (fitToWidth_exact_visual_width ('a' :: 'b' :: []) 40).1 (by decide) (by decide)⟩

/-- Go `strings.HasPrefix`. -/
def startsWith (pre s : Str) : Bool := List.isPrefixOf pre s

/-- Go `strings.Split s "\n"`: split on newline, keeping empty fields. -/
def splitLines : Str → List Str
  | [] => [[]]
  | c :: rest =>
    if c = '\n' then [] :: splitLines rest
    else
      match splitLines rest with
      | [] => [[c]]
      | l :: ls => (c :: l) :: ls

/-- Go `strings.Join ls "\n"`. -/
def joinNl (ls : List Str) : Str := List.intercalate ['\n'] ls

/-- ASCII whitespace, modelling the characters `unicode.IsSpace` accepts in
the Latin-1 range that occur in diff text. -/
def isSpaceChar (c : Char) : Bool :=
  c = ' ' || c = '\t' || c = '\n' || c = Char.ofNat 11 || c = Char.ofNat 12 || c = '\r'

/-- Go `strings.TrimSpace`. -/
def trimSpace (s : Str) : Str :=
  ((s.dropWhile isSpaceChar).reverse.dropWhile isSpaceChar).reverse

/-- Go `strings.Fields`: whitespace-separated fields, no empties. -/
def fields (s : Str) : List Str :=
  (List.splitOnP isSpaceChar s).filter (fun l => !l.isEmpty)

/-- Decimal digits to a number. -/
def digitsToNat (s : Str) : Nat :=
  s.foldl (fun n c => 10 * n + (c.toNat - 48)) 0

/-- Model of a successful `fmt.Sscanf(s, "%d", &x)` at the head of `s`:
the leading run of decimal digits, or `none` when the scan fails (in which
case the Go variable keeps its previous value). -/
def scanNum (s : Str) : Option Nat :=
  let ds := s.takeWhile Char.isDigit
  if ds.isEmpty then none else some (digitsToNat ds)

/-- Decimal rendering of a `Nat`. -/
def natStr (n : Nat) : Str := (Nat.repr n).data

/-- Go `fmt.Sprintf("%4d", n)`: right-justified in a 4-column field. -/
def fmtLineNum (n : Nat) : Str :=
  List.replicate (4 - (natStr n).length) ' ' ++ natStr n

/-- A lipgloss style, modelled as the pair of escape sequences its `Render`
wraps around the payload (both empty for a property-less style, which lipgloss
renders as the identity). -/
structure Style where
  intro : Str
  outro : Str

/-- Model of `lipgloss.Style.Render`. -/
def Style.render (st : Style) (s : Str) : Str := st.intro ++ s ++ st.outro

/-- An SGR escape sequence `\x1b[<codes>m`. -/
def sgr (codes : Str) : Str := ansiMarker :: '[' :: (codes ++ ['m'])

/-- The SGR reset sequence. -/
def sgrReset : Str := sgr ['0']

/-- Foreground 196 on background 52 (deleted line numbers and markers). -/
def deleteLineNumStyle : Style := ⟨sgr "38;5;196;48;5;52".toList, sgrReset⟩

/-- Background 52 (deleted content). -/
def deleteBgStyle : Style := ⟨sgr "48;5;52".toList, sgrReset⟩

/-- Foreground 46 on background 22 (added line numbers and markers). -/
def addLineNumStyle : Style := ⟨sgr "38;5;46;48;5;22".toList, sgrReset⟩

/-- Background 22 (added content). -/
def addBgStyle : Style := ⟨sgr "48;5;22".toList, sgrReset⟩

/-- Foreground 241 (context line numbers). -/
def contextLineNumStyle : Style := ⟨sgr "38;5;241".toList, sgrReset⟩

/-- `lipgloss.NewStyle()` with no properties renders as the identity. -/
def contextBgStyle : Style := ⟨[], []⟩

/-- Bold foreground 6 (hunk headers). -/
def hunkHeaderStyle : Style := ⟨sgr "1;38;5;6".toList, sgrReset⟩

/-- Bold foreground 33 (file headers). -/
def fileHeaderStyle : Style := ⟨sgr "1;38;5;33".toList, sgrReset⟩

/-- Greedy packing of words into lines of at most `w` columns (an over-long
single word is left unbroken, as reflow's word-wrapper does not hard-break). -/
def wrapWordsGo (w : Nat) : Str → List Str → List Str
  | cur, [] => [cur]
  | cur, x :: xs =>
    if cur.length + 1 + x.length ≤ w then wrapWordsGo w (cur ++ ' ' :: x) xs
    else cur :: wrapWordsGo w x xs

/-- Wrap one newline-free line at word boundaries. -/
def wrapLine (w : Nat) (line : Str) : List Str :=
  match (List.splitOnP (fun c => c = ' ') line).filter (fun l => !l.isEmpty) with
  | [] => [line]
  | wd :: ws => wrapWordsGo w wd ws

/-- Model of reflow `wordwrap.String`: keeps existing newlines, wraps each
line at spaces to at most `w` columns, never breaking a single over-long
word. -/
def wordWrap (s : Str) (w : Nat) : Str :=
  joinNl ((splitLines s).map (fun l => joinNl (wrapLine w l)))

/-- Go `uint(i)` for an `int` `i`: reduction modulo `2^64`. -/
def goUint64 (i : Int) : Nat := (i % (2 : Int) ^ 64).toNat

/-- Model of `DiffViewer.wrapContentWithStyle` (part_004, lines 843-884):
wrap one classified line's content, carrying the `%4d` line-number field and
operation marker on the first row and space padding of the same visual width
on continuation rows; when fewer than 11 content columns remain, produce a
single hard-truncated row instead of wrapping. -/
def wrapContentWithStyle (lineNum : Nat) (pfx : Str) (content : Str)
    (prefixStyle contentBgStyle : Style) (contentWidth : Int) : List Str :=
  if contentWidth ≤ 0 then [[]]
  else
    let lineNumStr := fmtLineNum lineNum
    let prefixVisualWidth : Nat := printableRuneWidth (lineNumStr ++ pfx)
    let actualContentWidth : Int := contentWidth - (prefixVisualWidth : Int)
    if actualContentWidth ≤ 10 then
      [prefixStyle.render lineNumStr ++ prefixStyle.render pfx ++
        contentBgStyle.render (truncateString content (goUint64 actualContentWidth))]
    else
      match splitLines (wordWrap content actualContentWidth.toNat) with
      | [] => []
      | l0 :: rest =>
        (prefixStyle.render lineNumStr ++ prefixStyle.render pfx ++
          contentBgStyle.render l0) ::
          rest.map (fun l =>
            List.replicate prefixVisualWidth ' ' ++ contentBgStyle.render l)

/-- Claim C7.  For every classified line rendered at pane width
`contentWidth > 0`: when at most 10 content columns remain after the fixed
`%4d` line-number field and the operation marker, `wrapContentWithStyle`
produces exactly one row whose content is hard-truncated (no wrapping);
otherwise the content is word-wrapped to the remaining width, the first row
carries the line-number and marker prefix, and every continuation row begins
with spaces equal to the prefix's visual width. -/
theorem wrapContentWithStyle_rows (lineNum : Nat) (pfx content : Str)
    (prefixStyle contentBgStyle : Style) (contentWidth : Int)
    (hpos : 0 < contentWidth) :
    (contentWidth - (printableRuneWidth (fmtLineNum lineNum ++ pfx) : Int) ≤ 10 →
      wrapContentWithStyle lineNum pfx content prefixStyle contentBgStyle contentWidth =
        [prefixStyle.render (fmtLineNum lineNum) ++ prefixStyle.render pfx ++
          contentBgStyle.render (truncateString content
            (goUint64 (contentWidth -
              (printableRuneWidth (fmtLineNum lineNum ++ pfx) : Int))))])
    ∧ (10 < contentWidth - (printableRuneWidth (fmtLineNum lineNum ++ pfx) : Int) →
        ∀ l0 rest,
          splitLines (wordWrap content
            (contentWidth -
              (printableRuneWidth (fmtLineNum lineNum ++ pfx) : Int)).toNat) =
            l0 :: rest →
          wrapContentWithStyle lineNum pfx content prefixStyle contentBgStyle contentWidth =
            (prefixStyle.render (fmtLineNum lineNum) ++ prefixStyle.render pfx ++
              contentBgStyle.render l0) ::
              rest.map (fun l =>
                List.replicate (printableRuneWidth (fmtLineNum lineNum ++ pfx)) ' ' ++
                  contentBgStyle.render l)) := by
  have h0 : ¬ contentWidth ≤ 0 := by omega
  constructor
  · intro hle
    simp [wrapContentWithStyle, h0, hle]
  · intro hgt l0 rest hsplit
    have hle : ¬ (contentWidth -
        (printableRuneWidth (fmtLineNum lineNum ++ pfx) : Int) ≤ 10) := by omega
    have harg : (contentWidth -
        (printableRuneWidth (fmtLineNum lineNum ++ pfx) : Int)).toNat =
        contentWidth.toNat - printableRuneWidth (fmtLineNum lineNum ++ pfx) := by
      omega
    rw [harg] at hsplit
    simp [wrapContentWithStyle, h0, hle, hsplit]

theorem wrapContentWithStyle_rows_witness :
    (0 : Int) < 15 ∧
      wrapContentWithStyle 3 " │ -".toList "hello".toList deleteLineNumStyle
          deleteBgStyle 15 =
        [deleteLineNumStyle.render (fmtLineNum 3) ++
          deleteLineNumStyle.render " │ -".toList ++
          deleteBgStyle.render (truncateString "hello".toList
            (goUint64 (15 -
              (printableRuneWidth (fmtLineNum 3 ++ " │ -".toList) : Int))))] :=
  ⟨by decide,
    (wrapContentWithStyle_rows 3 " │ -".toList "hello".toList deleteLineNumStyle
      deleteBgStyle 15 (by decide)).1 (by decide)⟩

/-- Model of `DiffViewer.calculateLayout` (part_004, lines 624-653).
`maxUsableWidth` is Go's `int(float64(width) * 0.90)`; for natural terminal
widths this float computation coincides with the integer floor `9*width/10`
(when `0.9*width` is an integer the nearest double is the integer itself,
since the relative error of the rounded constant `0.90` is below half an ulp,
and otherwise the true value is at least a tenth away from any integer, far
beyond the rounding error), which is how it is modelled here.  The divisions
in the side-by-side branch act on non-negative values, where Lean's `Int`
division agrees with Go's truncated division. -/
def calculateLayout (width : Nat) : Bool × Int × Int :=
  let minSideBySideWidth : Int := 100
  let dividerWidth : Int := 3
  let margins : Int := 4
  let maxUsableWidth : Nat := 9 * width / 10
  let availableWidth : Int := (maxUsableWidth : Int) - margins
  if availableWidth < minSideBySideWidth then (false, availableWidth, 0)
  else
    let contentWidth : Int := availableWidth - dividerWidth
    let leftWidth : Int := contentWidth / 2
    let rightWidth : Int := contentWidth - leftWidth
    let minColumnWidth : Int := 40
    if leftWidth < minColumnWidth ∨ rightWidth < minColumnWidth then
      (false, availableWidth, 0)
    else (true, leftWidth, rightWidth)

/-- The layout decision exactly as the specification words it, step by step:
`usableWidth = floor(w*0.90)`; `available = usableWidth - 4`; if
`available < 100` return Unified with width `available`; otherwise
`contentWidth = available - 3`, `leftWidth = contentWidth/2` (integer floor),
`rightWidth = contentWidth - leftWidth` (right absorbs the odd remainder);
fall back to Unified when either pane width is below 40.  (Unified is encoded
as `false` in the first component.) -/
def layoutDecisionSpec (w : Nat) : Bool × Int × Int :=
  let usableWidth : Int := ((9 * w / 10 : Nat) : Int)
  let available : Int := usableWidth - 4
  if available < 100 then (false, available, 0)
  else
    let contentWidth : Int := available - 3
    let leftWidth : Int := contentWidth / 2
    let rightWidth : Int := contentWidth - leftWidth
    if leftWidth < 40 ∨ rightWidth < 40 then (false, available, 0)
    else (true, leftWidth, rightWidth)

/-- Claim C3.  For every terminal width, the layout decision of the source's
`calculateLayout` follows exactly the claimed sequence of steps. -/
theorem calculateLayout_matches_spec (w : Nat) :
    calculateLayout w = layoutDecisionSpec w := rfl

theorem calculateLayout_sideBySide_iff (w : Nat) :
    (calculateLayout w).1 = true ↔ 104 ≤ 9 * w / 10 := by
  simp only [calculateLayout]
  split_ifs with h1 h2
  · simp only [Bool.false_eq_true, false_iff]
    omega
  · rcases h2 with h2 | h2 <;> (exfalso; omega)
  · simp only [true_iff]
    omega

/-- Claim C6.  The layout decision is monotone in terminal width: decreasing
the width never switches a Unified decision to SideBySide, and every width
whose derived available width (`floor(w*0.9) - 4`) is below the 100-column
threshold decides Unified. -/
theorem calculateLayout_monotone :
    (∀ w1 w2 : Nat, w1 < w2 → (calculateLayout w2).1 = false →
      (calculateLayout w1).1 = false)
    ∧ (∀ w : Nat, ((9 * w / 10 : Nat) : Int) - 4 < 100 →
      (calculateLayout w).1 = false) := by
  constructor
  · intro w1 w2 hlt h2
    by_contra hne
    have h1 : (calculateLayout w1).1 = true := by
      cases hb : (calculateLayout w1).1
      · exact absurd hb hne
      · rfl
    rw [calculateLayout_sideBySide_iff] at h1
    have hmono : 9 * w1 / 10 ≤ 9 * w2 / 10 :=
      Nat.div_le_div_right (by omega)
    have h2' : (calculateLayout w2).1 = true :=
      (calculateLayout_sideBySide_iff w2).2 (le_trans h1 hmono)
    rw [h2'] at h2
    exact absurd h2 (by simp)
  · intro w h
    by_contra hne
    have h1 : (calculateLayout w).1 = true := by
      cases hb : (calculateLayout w).1
      · exact absurd hb hne
      · rfl
    rw [calculateLayout_sideBySide_iff] at h1
    omega

theorem calculateLayout_monotone_witness :
    (100 : Nat) < 110 ∧ (calculateLayout 110).1 = false ∧
      (calculateLayout 100).1 = false ∧
      ((9 * 50 / 10 : Nat) : Int) - 4 < 100 ∧ (calculateLayout 50).1 = false :=
  ⟨by decide, by decide,
    calculateLayout_monotone.1 100 110 (by decide) (by decide),
    by decide, calculateLayout_monotone.2 50 (by decide)⟩

/-- Model of the scroll-synchronization block in `DiffViewer.Update`
(part_004, lines 171-194; identical in part_005, lines 160-182), run in
side-by-side mode after both viewports have processed the event.  `prevLeftY`
and `prevRightY` are the pre-event offsets, `newLeftY` and `newRightY` the
offsets produced by the two viewport updates.  When sync is enabled, a change
detected on the left viewport is first copied onto the right offset; the
right-hand check then compares the (possibly just overwritten) right offset
against its pre-event value and copies it onto the left.  Returns the final
(left, right) offsets. -/
def syncScrollStep (scrollSync : Bool)
    (prevLeftY prevRightY newLeftY newRightY : Int) : Int × Int :=
  if scrollSync then
    let rightY := if newLeftY ≠ prevLeftY then newLeftY else newRightY
    let leftY := if rightY ≠ prevRightY then rightY else newLeftY
    (leftY, rightY)
  else (newLeftY, newRightY)

/-- Claim C5.  With scroll synchronization enabled in side-by-side mode:
when exactly one viewport's offset changed during the event, the other
viewport's offset is set equal to it in the same step; when both changed,
both end the step at the left viewport's new offset (left wins); with
synchronization disabled, neither offset is copied. -/
theorem syncScrollStep_behaviour (prevL prevR newL newR : Int) :
    ((newL ≠ prevL ∧ newR = prevR →
        syncScrollStep true prevL prevR newL newR = (newL, newL))
      ∧ (newL = prevL ∧ newR ≠ prevR →
        syncScrollStep true prevL prevR newL newR = (newR, newR))
      ∧ (newL ≠ prevL ∧ newR ≠ prevR →
        syncScrollStep true prevL prevR newL newR = (newL, newL)))
    ∧ syncScrollStep false prevL prevR newL newR = (newL, newR) := by
  refine ⟨⟨?_, ?_, ?_⟩, ?_⟩
  · rintro ⟨h1, h2⟩
    by_cases h3 : newL = prevR <;> simp [syncScrollStep, h1, h2, h3]
  · rintro ⟨h1, h2⟩
    simp [syncScrollStep, h1, h2]
  · rintro ⟨h1, h2⟩
    by_cases h3 : newL = prevR
    · subst h3
      simp [syncScrollStep, h1]
    · simp [syncScrollStep, h1, h2, h3]
  · simp [syncScrollStep]

theorem syncScrollStep_behaviour_witness :
    ((5 : Int) ≠ 3 ∧ (4 : Int) = 4) ∧
      syncScrollStep true 3 4 5 4 = (5, 5) :=
  ⟨⟨by decide, rfl⟩, (syncScrollStep_behaviour 3 4 5 4).1.1 ⟨by decide, rfl⟩⟩

/-- The syntax highlighter as consumed by the pane builder: an oracle mapping
(content, language key) to styled content, standing for
`dv.applySyntaxHighlighting` together with the chroma library state. -/
abbrev Highlighter := Str → Str → Str

/-- The deletion marker `" │ -"` used by the pane builder. -/
def delPfx : Str := " │ -".toList

/-- The addition marker `" │ +"`. -/
def addPfx : Str := " │ +".toList

/-- The context marker `" │  "`. -/
def ctxPfx : Str := " │  ".toList

/-- The deletion loop of `renderSideBySidePanes` (part_004, lines 434-462):
strip the `-` prefix, suppress whitespace-only content when whitespace
display is off (still advancing the line counter), otherwise optionally
highlight and wrap the content.  Returns the accumulated wrapped rows and the
final left line counter. -/
def processDeletions (showWhitespace syntaxHighlight : Bool) (hl : Highlighter)
    (leftWidth : Int) : List Str → Nat → List Str × Nat
  | [], leftLineNum => ([], leftLineNum)
  | deletion :: ds, leftLineNum =>
    let content := if deletion.length > 1 then deletion.drop 1 else []
    if showWhitespace = false ∧ content ≠ [] ∧ trimSpace content = [] then
      processDeletions showWhitespace syntaxHighlight hl leftWidth ds
        (leftLineNum + 1)
    else
      let content2 := if syntaxHighlight then hl content "go".toList else content
      let wrappedLines := wrapContentWithStyle leftLineNum delPfx content2
        deleteLineNumStyle deleteBgStyle leftWidth
      let next := processDeletions showWhitespace syntaxHighlight hl leftWidth ds
        (leftLineNum + 1)
      (wrappedLines ++ next.1, next.2)

/-- The addition loop of `renderSideBySidePanes` (part_004, lines 465-493),
symmetric to `processDeletions` on the right pane. -/
def processAdditions (showWhitespace syntaxHighlight : Bool) (hl : Highlighter)
    (rightWidth : Int) : List Str → Nat → List Str × Nat
  | [], rightLineNum => ([], rightLineNum)
  | addition :: as_, rightLineNum =>
    let content := if addition.length > 1 then addition.drop 1 else []
    if showWhitespace = false ∧ content ≠ [] ∧ trimSpace content = [] then
      processAdditions showWhitespace syntaxHighlight hl rightWidth as_
        (rightLineNum + 1)
    else
      let content2 := if syntaxHighlight then hl content "go".toList else content
      let wrappedLines := wrapContentWithStyle rightLineNum addPfx content2
        addLineNumStyle addBgStyle rightWidth
      let next := processAdditions showWhitespace syntaxHighlight hl rightWidth as_
        (rightLineNum + 1)
      (wrappedLines ++ next.1, next.2)

/-- Hunk-header number extraction (part_004, lines 369-383): on
`@@ -oldStart,oldCount +newStart,newCount @@`, a field with the expected sign
prefix updates the corresponding start variable when `Sscanf` succeeds (on a
failed scan the variable keeps its previous value) and the line counter is
then set from the variable either way.  Returns
(oldStart, newStart, leftLineNum, rightLineNum). -/
def parseHunkHeader (line : Str) (oldStart newStart ln rn : Nat) :
    Nat × Nat × Nat × Nat :=
  let parts := fields line
  if parts.length ≥ 3 then
    let p1 := parts.getD 1 []
    let p2 := parts.getD 2 []
    let osLn : Nat × Nat :=
      if startsWith ['-'] p1 then
        let os := (scanNum (p1.drop 1)).getD oldStart
        (os, os)
      else (oldStart, ln)
    let nsRn : Nat × Nat :=
      if startsWith ['+'] p2 then
        let ns := (scanNum (p2.drop 1)).getD newStart
        (ns, ns)
      else (newStart, rn)
    (osLn.1, nsRn.1, osLn.2, nsRn.2)
  else (oldStart, newStart, ln, rn)

/-- Core loop of `renderSideBySidePanes` (part_004, lines 357-561), consuming
the split diff lines while tracking the two line counters and the two parsed
hunk start variables.  Deletion runs together with any directly following
addition run are processed as one block and balanced with blank rows; hunk
and file headers go to both panes; context lines go to both panes; anything
else is skipped. -/
def buildPanes (showWhitespace syntaxHighlight : Bool) (hl : Highlighter)
    (leftWidth rightWidth : Int) :
    List Str → Nat → Nat → Nat → Nat → List Str × List Str
  | [], _, _, _, _ => ([], [])
  | line :: rest, ln, rn, os, ns =>
    if line = [] then
      buildPanes showWhitespace syntaxHighlight hl leftWidth rightWidth rest
        ln rn os ns
    else if startsWith "@@".toList line then
      let parsed := parseHunkHeader line os ns ln rn
      let styledLine := hunkHeaderStyle.render line
      let next := buildPanes showWhitespace syntaxHighlight hl leftWidth
        rightWidth rest parsed.2.2.1 parsed.2.2.2 parsed.1 parsed.2.1
      (fitToWidth styledLine leftWidth :: next.1,
       fitToWidth styledLine rightWidth :: next.2)
    else if startsWith "---".toList line || startsWith "+++".toList line ||
        startsWith "diff --git".toList line then
      let styledLine := fileHeaderStyle.render line
      let next := buildPanes showWhitespace syntaxHighlight hl leftWidth
        rightWidth rest ln rn os ns
      (fitToWidth styledLine leftWidth :: next.1,
       fitToWidth styledLine rightWidth :: next.2)
    else if _hd : startsWith ['-'] line then
      let dels := line :: rest.takeWhile (fun l => startsWith ['-'] l)
      let afterDels := rest.dropWhile (fun l => startsWith ['-'] l)
      let adds := afterDels.takeWhile (fun l => startsWith ['+'] l)
      let afterAdds := afterDels.drop adds.length
      let left := processDeletions showWhitespace syntaxHighlight hl leftWidth
        dels ln
      let right := processAdditions showWhitespace syntaxHighlight hl rightWidth
        adds rn
      let maxWrappedLines := max left.1.length right.1.length
      let leftBalanced := left.1 ++
        List.replicate (maxWrappedLines - left.1.length) (fitToWidth [] leftWidth)
      let rightBalanced := right.1 ++
        List.replicate (maxWrappedLines - right.1.length) (fitToWidth [] rightWidth)
      let next := buildPanes showWhitespace syntaxHighlight hl leftWidth
        rightWidth afterAdds left.2 right.2 os ns
      (leftBalanced ++ next.1, rightBalanced ++ next.2)
    else if startsWith [' '] line then
      let content := if line.length > 1 then line.drop 1 else []
      let content2 := if syntaxHighlight then hl content "go".toList else content
      let leftWrappedLines := wrapContentWithStyle ln ctxPfx content2
        contextLineNumStyle contextBgStyle leftWidth
      let rightWrappedLines := wrapContentWithStyle rn ctxPfx content2
        contextLineNumStyle contextBgStyle rightWidth
      let maxWrappedLines := max leftWrappedLines.length rightWrappedLines.length
      let leftBalanced := leftWrappedLines ++
        List.replicate (maxWrappedLines - leftWrappedLines.length)
          (fitToWidth [] leftWidth)
      let rightBalanced := rightWrappedLines ++
        List.replicate (maxWrappedLines - rightWrappedLines.length)
          (fitToWidth [] rightWidth)
      let next := buildPanes showWhitespace syntaxHighlight hl leftWidth
        rightWidth rest (ln + 1) (rn + 1) os ns
      (leftBalanced ++ next.1, rightBalanced ++ next.2)
    else
      buildPanes showWhitespace syntaxHighlight hl leftWidth rightWidth rest
        ln rn os ns
termination_by lines _ _ _ _ => lines.length
decreasing_by
  all_goals simp only [List.length_cons]
  · omega
  · omega
  · omega
  · have h1 :=
      (List.dropWhile_sublist (p := fun l => startsWith ['-'] l) (l := rest)).length_le
    have h2 := List.length_drop
      ((rest.dropWhile (fun l => startsWith ['-'] l)).takeWhile
        (fun l => startsWith ['+'] l)).length
      (rest.dropWhile (fun l => startsWith ['-'] l))
    omega
  · omega
  · omega

/-- Model of `DiffViewer.calculatePaneWidths` (part_004, lines 306-313):
90% of the terminal width minus the 3-column separator, split in half with
the right pane absorbing the remainder.  Go's `/` truncates toward zero,
hence `Int.tdiv`. -/
def calculatePaneWidths (width : Nat) : Int × Int :=
  let maxUsableWidth : Nat := 9 * width / 10
  let available : Int := (maxUsableWidth : Int) - 3
  let leftWidth : Int := available.tdiv 2
  let rightWidth : Int := available - leftWidth
  (leftWidth, rightWidth)

/-- The body of `renderSideBySidePanes` (part_004, lines 344-577) for given
pane widths: build both panes from the split diff content (line counters
start at 1, the hunk start variables at 0) and balance the final row counts
by padding the shorter side with blank rows. -/
def buildAndBalance (showWhitespace syntaxHighlight : Bool) (hl : Highlighter)
    (leftWidth rightWidth : Int) (content : Str) : List Str × List Str :=
  let built := buildPanes showWhitespace syntaxHighlight hl leftWidth
    rightWidth (splitLines content) 1 1 0 0
  let maxLines := max built.1.length built.2.length
  (built.1 ++ List.replicate (maxLines - built.1.length) (fitToWidth [] leftWidth),
   built.2 ++ List.replicate (maxLines - built.2.length) (fitToWidth [] rightWidth))

/-- Model of `DiffViewer.renderSideBySidePanes` (part_004, lines 344-577):
pane widths are derived from the terminal width via `calculatePaneWidths`. -/
def renderSideBySidePanes (width : Nat) (showWhitespace syntaxHighlight : Bool)
    (hl : Highlighter) (content : Str) : List Str × List Str :=
  buildAndBalance showWhitespace syntaxHighlight hl
    (calculatePaneWidths width).1 (calculatePaneWidths width).2 content

theorem buildAndBalance_length (sw sh : Bool) (hl : Highlighter)
    (lw rw : Int) (content : Str) :
    (buildAndBalance sw sh hl lw rw content).1.length =
      (buildAndBalance sw sh hl lw rw content).2.length := by
  simp only [buildAndBalance, List.length_append, List.length_replicate]
  omega

/-- Claim C2.  For every input diff content, every highlighting oracle, both
flags and every pair of pane widths, the side-by-side pane build produces a
left row sequence and a right row sequence of equal length (the shorter side
having been padded with blank rows); in particular this holds for the pane
widths the viewer derives from any terminal width. -/
theorem renderSideBySidePanes_balanced (sw sh : Bool) (hl : Highlighter)
    (lw rw : Int) (content : Str) (width : Nat) :
    ((buildAndBalance sw sh hl lw rw content).1.length =
      (buildAndBalance sw sh hl lw rw content).2.length)
    ∧ ((renderSideBySidePanes width sw sh hl content).1.length =
      (renderSideBySidePanes width sw sh hl content).2.length) :=
  ⟨buildAndBalance_length sw sh hl lw rw content,
   buildAndBalance_length sw sh hl _ _ content⟩

theorem splitLines_ne_nil (s : Str) : splitLines s ≠ [] := by
  cases s with
  | nil => simp [splitLines]
  | cons c rest =>
    by_cases h : c = '\n'
    · simp [splitLines, h]
    · rcases hsp : splitLines rest with _ | ⟨l, ls⟩ <;>
        simp [splitLines, h, hsp]

theorem wrapContentWithStyle_ne_nil (lineNum : Nat) (pfx content : Str)
    (prefixStyle contentBgStyle : Style) (contentWidth : Int) :
    wrapContentWithStyle lineNum pfx content prefixStyle contentBgStyle
      contentWidth ≠ [] := by
  unfold wrapContentWithStyle
  dsimp only
  split
  · simp
  · split
    · simp
    · rcases hsp : splitLines (wordWrap content
          (contentWidth.toNat - printableRuneWidth (fmtLineNum lineNum ++ pfx)))
        with _ | ⟨l, ls⟩
      · exact absurd hsp (splitLines_ne_nil _)
      · simp [hsp]

/-- Claim C4.  In the pane-building loops for changed lines: when whitespace
display is disabled, a deletion or addition whose raw content (after the
`-`/`+` marker) is non-empty but trims to the empty string contributes no row
to its pane while its line counter still advances; and a deletion or addition
whose raw content is exactly the empty string is emitted (its wrapped rows,
never empty, are produced) regardless of the whitespace flag. -/
theorem whitespace_only_changes (sh : Bool) (hl : Highlighter) (lw rw : Int)
    (d a : Str) (ds as_ : List Str) (ln rn : Nat) :
    ((if d.length > 1 then d.drop 1 else []) ≠ [] →
      trimSpace (if d.length > 1 then d.drop 1 else []) = [] →
      processDeletions false sh hl lw (d :: ds) ln =
        processDeletions false sh hl lw ds (ln + 1))
    ∧ ((if a.length > 1 then a.drop 1 else []) ≠ [] →
      trimSpace (if a.length > 1 then a.drop 1 else []) = [] →
      processAdditions false sh hl rw (a :: as_) rn =
        processAdditions false sh hl rw as_ (rn + 1))
    ∧ ((if d.length > 1 then d.drop 1 else []) = [] → ∀ sw : Bool,
      wrapContentWithStyle ln delPfx (if sh then hl [] "go".toList else [])
          deleteLineNumStyle deleteBgStyle lw ≠ [] ∧
      processDeletions sw sh hl lw (d :: ds) ln =
        (wrapContentWithStyle ln delPfx (if sh then hl [] "go".toList else [])
            deleteLineNumStyle deleteBgStyle lw ++
          (processDeletions sw sh hl lw ds (ln + 1)).1,
         (processDeletions sw sh hl lw ds (ln + 1)).2))
    ∧ ((if a.length > 1 then a.drop 1 else []) = [] → ∀ sw : Bool,
      wrapContentWithStyle rn addPfx (if sh then hl [] "go".toList else [])
          addLineNumStyle addBgStyle rw ≠ [] ∧
      processAdditions sw sh hl rw (a :: as_) rn =
        (wrapContentWithStyle rn addPfx (if sh then hl [] "go".toList else [])
            addLineNumStyle addBgStyle rw ++
          (processAdditions sw sh hl rw as_ (rn + 1)).1,
         (processAdditions sw sh hl rw as_ (rn + 1)).2)) := by
  refine ⟨?_, ?_, ?_, ?_⟩
  · intro hne htrim
    simp only [List.drop_one] at hne htrim
    simp [processDeletions, hne, htrim]
  · intro hne htrim
    simp only [List.drop_one] at hne htrim
    simp [processAdditions, hne, htrim]
  · intro hemp sw
    refine ⟨wrapContentWithStyle_ne_nil _ _ _ _ _ _, ?_⟩
    simp only [List.drop_one] at hemp
    simp [processDeletions, hemp]
  · intro hemp sw
    refine ⟨wrapContentWithStyle_ne_nil _ _ _ _ _ _, ?_⟩
    simp only [List.drop_one] at hemp
    simp [processAdditions, hemp]

theorem whitespace_only_changes_witness :
    ((if ("-  ".toList).length > 1 then ("-  ".toList).drop 1 else
        ([] : Str)) ≠ [] ∧
      trimSpace (if ("-  ".toList).length > 1 then ("-  ".toList).drop 1 else
        []) = []) ∧
      processDeletions false false (fun c _ => c) 60 ["-  ".toList] 7 =
        processDeletions false false (fun c _ => c) 60 [] 8 :=
  ⟨⟨by decide, by decide⟩,
    (whitespace_only_changes false (fun c _ => c) 60 60 "-  ".toList
      "+x".toList [] [] 7 1).1 (by decide) (by decide)⟩

/-- Model of Go `filepath.Ext`: the suffix of the final path element starting
at its final dot, empty when the final element contains no dot. -/
def filepathExt (path : Str) : Str :=
  let base := (path.reverse.takeWhile (fun c => c ≠ '/')).reverse
  if base.any (fun c => c = '.') then
    '.' :: (base.reverse.takeWhile (fun c => c ≠ '.')).reverse
  else []

/-- The chroma library surface consumed by `applySyntaxHighlighting`,
modelled as an environment of partial lookups: `matchLexer` is
`lexers.Match` (by filename), `getLexer` is `lexers.Get` (by extension or
language name), `styleGet`/`styleFallback` are `styles.Get`/`styles.Fallback`
and `formatterGet` is `formatters.Get`.  A lexer is its tokeniser
(`Tokenise`, which may fail), a formatter takes a style and a token stream
(`Format`, which may fail). -/
structure ChromaEnv where
  matchLexer : Str → Option (Str → Except Unit Str)
  getLexer : Str → Option (Str → Except Unit Str)
  styleGet : Str → Option Str
  styleFallback : Str
  formatterGet : Str → Option (Str → Str → Except Unit Str)

/-- The shared tail of both `applySyntaxHighlighting` variants once a lexer is
found: style lookup with fallback, formatter lookup (miss returns the content
unchanged), tokenise (error returns the content unchanged), format (error
returns the content unchanged). -/
def highlightWith (env : ChromaEnv) (lex : Str → Except Unit Str)
    (content : Str) : Str :=
  let style := match env.styleGet "github".toList with
    | some st => st
    | none => env.styleFallback
  match env.formatterGet "terminal256".toList with
  | none => content
  | some fm =>
    match lex content with
    | .error _ => content
    | .ok toks =>
      match fm style toks with
      | .error _ => content
      | .ok highlighted => highlighted

/-- Model of `applySyntaxHighlighting` in the edit-script viewer (part_004,
lines 580-622): the extension fallback is guarded by `len(ext) > 1`, so an
extensionless filename simply misses and the content is returned
unchanged. -/
def applySyntaxHighlightingEdits (env : ChromaEnv) (syntaxHighlight : Bool)
    (content filename : Str) : Str :=
  if syntaxHighlight = false then content
  else
    let lexer : Option (Str → Except Unit Str) :=
      match env.matchLexer filename with
      | some l => some l
      | none =>
        let ext := filepathExt filename
        if ext.length > 1 then env.getLexer (ext.drop 1) else none
    match lexer with
    | none => content
    | some lex => highlightWith env lex content

/-- Model of `applySyntaxHighlighting` in the gitdiff-based viewer (part_005,
lines 784-824): when `lexers.Match` misses, the code slices `ext[1:]` with no
length guard; when `filepath.Ext(filename)` is empty (a filename without a
dot) that slice is out of bounds and the Go runtime panics, modelled here as
`none`. -/
def applySyntaxHighlightingGitdiff (env : ChromaEnv) (syntaxHighlight : Bool)
    (content filename : Str) : Option Str :=
  if syntaxHighlight = false then some content
  else
    match env.matchLexer filename with
    | some lex => some (highlightWith env lex content)
    | none =>
      let ext := filepathExt filename
      if ext.length < 1 then none
      else
        match env.getLexer (ext.drop 1) with
        | none => some content
        | some lex => some (highlightWith env lex content)

/-- A chroma environment in which every lookup misses (no lexer matches
`README`, which chroma's registry indeed leaves unmatched). -/
def chromaNoLexers : ChromaEnv :=
  ⟨fun _ => none, fun _ => none, fun _ => none, [], fun _ => none⟩

/-- Claim C8, evaluated at the failing input.  With highlighting enabled, an
extensionless filename (`README`) whose lexer lookup misses makes the
gitdiff-based `applySyntaxHighlighting` slice `ext[1:]` out of bounds — a
runtime panic (`none` in the model) — contradicting the claim that every
lookup miss degrades silently to the unchanged content; the edit-script
variant of the same function, whose extension fallback is guarded by
`len(ext) > 1`, returns the content unchanged exactly as the claim states. -/
theorem applySyntaxHighlighting_extensionless_panic :
    applySyntaxHighlightingGitdiff chromaNoLexers true "package".toList
        "README".toList = none
    ∧ applySyntaxHighlightingEdits chromaNoLexers true "package".toList
        "README".toList = "package".toList := by
  constructor
  · decide
  · decide

/-- Modelled from the spec: `EditOperation` — a single replace-range
transformation `{start, end, newText}` over the original content (the
`udiff.Edit` of the external edit-script producer; `End` is renamed `stop`
because `end` is a Lean keyword). -/
structure Edit where
  start : Nat
  stop : Nat
  new : Str
deriving DecidableEq

/-- Length of the longest common prefix of two strings. -/
def commonPrefixLen : Str → Str → Nat
  | a :: as2, b :: bs => if a = b then commonPrefixLen as2 bs + 1 else 0
  | _, _ => 0

/-- Length of the longest common suffix of two strings. -/
def commonSuffixLen (x y : Str) : Nat := commonPrefixLen x.reverse y.reverse

/-- Modelled from the spec: the external edit-script producer
`diff(original, revised) -> EditOperation[]` (`udiff.Strings`, whose
implementation lives outside this repository).  Identical inputs yield the
empty script; otherwise the common prefix and suffix are preserved and the
differing middle becomes one ordered, non-overlapping replace operation, an
instance of the interface the spec assumes of the producer. -/
def diffStrings (before after : Str) : List Edit :=
  if before = after then []
  else
    let p := commonPrefixLen before after
    let s := commonSuffixLen (before.drop p) (after.drop p)
    [⟨p, before.length - s, (after.drop p).take (after.length - p - s)⟩]

/-- Modelled from the spec: sequential splice application of an edit script
to the original content (`udiff.Apply`): operations must be ordered by start
and non-overlapping and lie within bounds, otherwise application errors;
each step keeps the unchanged segment before the edit, substitutes the
replacement for the edited range, and continues after it. -/
def applyEditsFrom (src : Str) : Nat → List Edit → Except Unit Str
  | pos, [] => .ok (src.drop pos)
  | pos, e :: es =>
    if e.start < pos ∨ e.stop < e.start ∨ src.length < e.stop then .error ()
    else
      match applyEditsFrom src e.stop es with
      | .error x => .error x
      | .ok rest => .ok ((src.drop pos).take (e.start - pos) ++ e.new ++ rest)

/-- Modelled from the spec: apply a whole edit script to the original. -/
def applyEdits (src : Str) (edits : List Edit) : Except Unit Str :=
  applyEditsFrom src 0 edits

theorem commonPrefixLen_le_left : ∀ (a b : Str), commonPrefixLen a b ≤ a.length := by
  intro a
  induction a with
  | nil => intro b; cases b <;> simp [commonPrefixLen]
  | cons x xs ih =>
    intro b
    cases b with
    | nil => simp [commonPrefixLen]
    | cons y ys =>
      by_cases h : x = y
      · have := ih ys
        simp [commonPrefixLen, h]
        omega
      · simp [commonPrefixLen, h]

theorem commonPrefixLen_le_right : ∀ (a b : Str), commonPrefixLen a b ≤ b.length := by
  intro a
  induction a with
  | nil => intro b; cases b <;> simp [commonPrefixLen]
  | cons x xs ih =>
    intro b
    cases b with
    | nil => simp [commonPrefixLen]
    | cons y ys =>
      by_cases h : x = y
      · have := ih ys
        simp [commonPrefixLen, h]
        omega
      · simp [commonPrefixLen, h]

theorem take_commonPrefixLen_eq : ∀ (a b : Str),
    a.take (commonPrefixLen a b) = b.take (commonPrefixLen a b) := by
  intro a
  induction a with
  | nil => intro b; cases b <;> simp [commonPrefixLen]
  | cons x xs ih =>
    intro b
    cases b with
    | nil => simp [commonPrefixLen]
    | cons y ys =>
      by_cases h : x = y
      · simp [commonPrefixLen, h, List.take_succ_cons, ih ys]
      · simp [commonPrefixLen, h]

theorem drop_length_sub_eq_reverse_take (l : Str) (s : Nat) :
    l.drop (l.length - s) = (l.reverse.take s).reverse := by
  rw [List.take_reverse, List.reverse_reverse]

/-- Claim C9 (spec-modelled).  For every pair of texts — including
empty-to-nonempty, nonempty-to-empty and both-empty — applying the edit
operations produced by the edit-script producer sequentially to the original
yields exactly the revised text. -/
theorem diff_roundtrip (before after : Str) :
    applyEdits before (diffStrings before after) = .ok after := by
  by_cases heq : before = after
  · subst heq
    simp [diffStrings, applyEdits, applyEditsFrom]
  · have hp1 := commonPrefixLen_le_left before after
    have hp2 := commonPrefixLen_le_right before after
    set p := commonPrefixLen before after with hpdef
    set s := commonSuffixLen (before.drop p) (after.drop p) with hsdef
    have hs1 : s ≤ before.length - p := by
      have := commonPrefixLen_le_left (before.drop p).reverse (after.drop p).reverse
      simpa [hsdef, commonSuffixLen] using this
    have hs2 : s ≤ after.length - p := by
      have := commonPrefixLen_le_right (before.drop p).reverse (after.drop p).reverse
      simpa [hsdef, commonSuffixLen] using this
    have hA : before.take p = after.take p := take_commonPrefixLen_eq before after
    have hrev : (before.drop p).reverse.take s = (after.drop p).reverse.take s := by
      have := take_commonPrefixLen_eq (before.drop p).reverse (after.drop p).reverse
      rw [hsdef, commonSuffixLen]
      exact this
    have hTail : before.drop (before.length - s) = after.drop (after.length - s) := by
      have h2 : before.drop (before.length - s) =
          (before.drop p).drop ((before.drop p).length - s) := by
        rw [List.drop_drop, List.length_drop]
        congr 1
        omega
      have h3 : after.drop (after.length - s) =
          (after.drop p).drop ((after.drop p).length - s) := by
        rw [List.drop_drop, List.length_drop]
        congr 1
        omega
      rw [h2, h3, drop_length_sub_eq_reverse_take, drop_length_sub_eq_reverse_take,
        hrev]
    simp only [diffStrings, heq, if_false, applyEdits, applyEditsFrom]
    have hcond : ¬ (p < 0 ∨ before.length - s < p ∨
        before.length < before.length - s) := by omega
    rw [if_neg hcond]
    simp only [applyEditsFrom, List.drop_zero, Nat.sub_zero]
    have hmid : (after.drop p).take (after.length - p - s) =
        (after.drop p).take ((after.drop p).length - s) := by
      rw [List.length_drop]
    rw [hA, hTail, hmid]
    rw [show after.length - s = p + ((after.drop p).length - s) by
      rw [List.length_drop]; omega]
    rw [← List.drop_drop]
    rw [List.append_assoc, List.take_append_drop, List.take_append_drop]

/-- The `COMMIT:` line tag of `parseResponse`. -/
def commitTag : Str := "COMMIT:".toList

/-- The `PR:` line tag of `parseResponse`. -/
def prTag : Str := "PR:".toList

/-- The parsed LLM reply (api.go `LLMResult`). -/
structure LLMResult where
  commitMessage : Str
  prDescription : Str
deriving DecidableEq

/-- The loop state of `parseResponse` (api.go, lines 227-229). -/
structure ParseSt where
  commitMessage : Str
  prLines : List Str
  inPR : Bool
deriving DecidableEq

/-- The line loop of `parseResponse` (api.go, lines 231-240): a `COMMIT:`
line (re)sets the commit message to its trimmed suffix, a `PR:` line turns on
collection and is itself skipped, and any other line is collected while
collection is on. -/
def parseLoop : ParseSt → List Str → ParseSt
  | st, [] => st
  | st, line :: rest =>
    if startsWith commitTag line then
      parseLoop { st with commitMessage := trimSpace (line.drop 7) } rest
    else if startsWith prTag line then
      parseLoop { st with inPR := true } rest
    else if st.inPR then
      parseLoop { st with prLines := st.prLines ++ [line] } rest
    else parseLoop st rest

/-- Model of `parseResponse` (api.go, lines 224-256).  The Go function
returns a `(*LLMResult, error)` pair whose components are mutually exclusive
on every path; the model returns the corresponding `Except`. -/
def parseResponse (content : Str) : Except Str LLMResult :=
  let st := parseLoop ⟨[], [], false⟩ (splitLines content)
  if st.commitMessage = [] then
    .error "no commit message found in response".toList
  else
    let prDescription := trimSpace (joinNl st.prLines)
    if prDescription = [] then
      .error "no PR description found in response".toList
    else .ok ⟨st.commitMessage, prDescription⟩

/-- Whether `parseResponse` failed. -/
def isParseError (r : Except Str LLMResult) : Bool :=
  match r with
  | .error _ => true
  | .ok _ => false

/-- The trimmed text after `COMMIT:` of the last such line of the input,
empty when no `COMMIT:` line exists (the quantity the amended claim speaks
about). -/
def lastCommitText (content : Str) : Str :=
  match ((splitLines content).filter
      (fun l => startsWith commitTag l)).getLast? with
  | some l => trimSpace (l.drop 7)
  | none => []

/-- The collected PR body: the lines gathered after the first `PR:` line,
joined and trimmed. -/
def prBody (content : Str) : Str :=
  trimSpace (joinNl (parseLoop ⟨[], [], false⟩ (splitLines content)).prLines)

theorem getLast?_cons_eq {α : Type} (a : α) (l : List α) :
    (a :: l).getLast? = some (l.getLast?.getD a) := by
  induction l generalizing a with
  | nil => simp
  | cons b m ih =>
    rw [List.getLast?_cons_cons, ih b]
    cases hm : m.getLast? <;> simp [ih, hm]

theorem parseLoop_commitMessage (ls : List Str) : ∀ st : ParseSt,
    (parseLoop st ls).commitMessage =
      match (ls.filter (fun l => startsWith commitTag l)).getLast? with
      | some l => trimSpace (l.drop 7)
      | none => st.commitMessage := by
  induction ls with
  | nil => intro st; simp [parseLoop]
  | cons line rest ih =>
    intro st
    by_cases hc : startsWith commitTag line
    · have hstep : parseLoop st (line :: rest) =
          parseLoop { st with commitMessage := trimSpace (line.drop 7) } rest := by
        simp [parseLoop, hc]
      have hfilter : (line :: rest).filter (fun l => startsWith commitTag l) =
          line :: rest.filter (fun l => startsWith commitTag l) := by
        simp [List.filter_cons, hc]
      rw [hstep, ih, hfilter, getLast?_cons_eq]
      cases hfl : (rest.filter (fun l => startsWith commitTag l)).getLast? with
      | none => simp [hfl]
      | some l => simp [hfl]
    · have hc' : startsWith commitTag line = false := by simpa using hc
      have hfilter : (line :: rest).filter (fun l => startsWith commitTag l) =
          rest.filter (fun l => startsWith commitTag l) := by
        simp [List.filter_cons, hc']
      rw [hfilter]
      by_cases hp : startsWith prTag line
      · have hstep : parseLoop st (line :: rest) =
            parseLoop { st with inPR := true } rest := by
          simp [parseLoop, hc', hp]
        rw [hstep, ih]
      · have hp' : startsWith prTag line = false := by simpa using hp
        by_cases hin : st.inPR
        · have hstep : parseLoop st (line :: rest) =
              parseLoop { st with prLines := st.prLines ++ [line] } rest := by
            simp [parseLoop, hc', hp', hin]
          rw [hstep, ih]
        · have hin' : st.inPR = false := by simpa using hin
          have hstep : parseLoop st (line :: rest) = parseLoop st rest := by
            simp [parseLoop, hc', hp', hin']
          rw [hstep, ih]

/-- Claim C10, amended.  `parseResponse` errors if and only if the trimmed
text of the LAST `COMMIT:`-prefixed line is empty (in particular when no such
line exists) or the lines collected after a `PR:` line trim to the empty
string; when it succeeds, the result's `CommitMessage` and `PRDescription`
are both non-empty.  (The Go function returns a `(*LLMResult, error)` pair;
every return statement carries exactly one non-nil component, which the
`Except` model captures by construction.) -/
theorem parseResponse_error_iff (content : Str) :
    (isParseError (parseResponse content) = true ↔
      (lastCommitText content = [] ∨ prBody content = []))
    ∧ (∀ r, parseResponse content = .ok r →
      r.commitMessage ≠ [] ∧ r.prDescription ≠ []) := by
  have hcm : (parseLoop ⟨[], [], false⟩ (splitLines content)).commitMessage =
      lastCommitText content := by
    rw [parseLoop_commitMessage]
    unfold lastCommitText
    cases hfl : ((splitLines content).filter
        (fun l => startsWith commitTag l)).getLast? <;> simp [hfl]
  by_cases h1 : (parseLoop ⟨[], [], false⟩ (splitLines content)).commitMessage = []
  · constructor
    · simp [parseResponse, h1, isParseError, ← hcm]
    · intro r hr
      simp [parseResponse, h1] at hr
  · by_cases h2 : trimSpace (joinNl
        (parseLoop ⟨[], [], false⟩ (splitLines content)).prLines) = []
    · constructor
      · simp [parseResponse, h1, h2, isParseError, prBody]
      · intro r hr
        simp [parseResponse, h1, h2] at hr
    · constructor
      · simp only [parseResponse, h1, h2, if_false, ite_false, isParseError]
        constructor
        · intro h
          exact absurd h (by simp [parseResponse, h1, h2, isParseError])
        · intro h
          rcases h with h | h
          · rw [← hcm] at h
            exact absurd h h1
          · unfold prBody at h
            exact absurd h h2
      · intro r hr
        simp only [parseResponse, h1, h2, if_false, ite_false] at hr
        have : r = ⟨(parseLoop ⟨[], [], false⟩ (splitLines content)).commitMessage,
            trimSpace (joinNl
              (parseLoop ⟨[], [], false⟩ (splitLines content)).prLines)⟩ := by
          simpa using hr.symm
        subst this
        exact ⟨h1, h2⟩

/-- The error condition exactly as claim C10 words it: no `COMMIT:`-prefixed
line carries non-whitespace text after the tag, or the collected PR lines
trim to the empty string. -/
def claimTenErrorCond (content : Str) : Prop :=
  (∀ line ∈ splitLines content,
    startsWith commitTag line → trimSpace (line.drop 7) = [])
  ∨ prBody content = []

instance (content : Str) : Decidable (claimTenErrorCond content) := by
  unfold claimTenErrorCond
  infer_instance

/-- Claim C10, counterexample to the claim as stated: on
`"COMMIT: fix\nCOMMIT:\nPR:\nbody"` the first `COMMIT:` line carries the
non-whitespace text `fix` and the PR body is non-empty, so the claim predicts
success, yet `parseResponse` errors because the LAST `COMMIT:` line overwrote
the commit message with the empty string. -/
theorem parseResponse_counterexample :
    ¬ (isParseError
        (parseResponse "COMMIT: fix\nCOMMIT:\nPR:\nbody".toList) = true ↔
      claimTenErrorCond "COMMIT: fix\nCOMMIT:\nPR:\nbody".toList) := by
  decide

theorem parseResponse_error_iff_witness :
    parseResponse "COMMIT: a\nPR:\nb".toList = .ok ⟨['a'], ['b']⟩ ∧
      (['a'] : Str) ≠ [] ∧ (['b'] : Str) ≠ [] :=
  ⟨by rfl,
    (parseResponse_error_iff "COMMIT: a\nPR:\nb".toList).2 ⟨['a'], ['b']⟩ (by rfl)⟩
